import Mathlib

/-!
Verification of the gowsps packet library (package `gowsps`).

The development shallowly embeds the Go sources:

* `encoder.go` — the binary value codec (`PacketBuffer`, `MarshalPacket`,
  `marshalValue`, `marshalSlice`, `marshalMap`, `marshalPrimitive`,
  `UnMarshalPacket`, `unmarshalValue`, `unmarshalSlice`, `unmarshalMap`,
  `unmarshalPrimitive`) together with the Go standard-library primitives it
  calls (`binary.PutUvarint`, `binary.ReadUvarint`, `io.ReadFull`,
  big-endian `binary.Write`/`binary.Read`).
* `net.go` — the connection layer (`Connection.Send`, the close handler
  installed by `UpgradeAndListen`, `PacketSystem`, `AddHandler`,
  `DecodePacket` and the receive loop body).

Byte streams are `List Nat` (each entry a byte value), a `PacketBuffer`'s
write side is modelled by the list of bytes appended, and its read side by
state passing: every decoding function returns the error state (`Option
GoErr`), the value the destination field holds afterwards, and the bytes
remaining after the reads it performed.  Machine integers are `Nat`/`Int`
with explicit bounds; 32/64-bit floats are carried as their IEEE bit
patterns, which is exact because `binary.Write`/`binary.Read` move only the
raw big-endian bytes of `math.Float32bits`/`math.Float64bits`.
-/

/-- Error kinds produced by the codec primitives.  `eof` is `io.EOF`,
`unexpectedEof` is `io.ErrUnexpectedEOF` (both arise from exhausting the
buffer mid-read), `overflow` is `binary.ReadUvarint`'s 64-bit overflow
error, and `invalidType` is the `binary.Read: invalid type` error. -/
inductive GoErr : Type where
  | eof
  | unexpectedEof
  | overflow
  | invalidType
deriving DecidableEq

/-- Bytes appended by `binary.PutUvarint` (used by
`PacketBuffer.WriteVarInt`, encoder.go lines 24-29): while `x >= 0x80` it
emits `byte(x)|0x80` and shifts `x` right by 7, then emits the final
group; least-significant 7-bit group first, high bit as continuation. -/
def putUvarint (x : Nat) : List Nat :=
  if x < 128 then [x] else (x % 128 + 128) :: putUvarint (x / 128)
termination_by x
decreasing_by
  exact Nat.div_lt_self (by omega) (by omega)

/-- Number of bytes `putUvarint` appends. -/
def putLen (x : Nat) : Nat := (putUvarint x).length

/-- Loop of `binary.ReadUvarint`: the fuel argument counts the remaining
iterations of `for i := 0; i < binary.MaxVarintLen64; i++` (so fuel `10 - i`);
`x` and `s` are the accumulator and shift.  Returns the error state, the
value accumulated so far (Go returns the partial `x` alongside the error),
and the bytes left unconsumed. -/
def readUvarintLoop : Nat → Nat → Nat → List Nat → Option GoErr × Nat × List Nat
  | 0, x, _, bs => (some .overflow, x, bs)
  | _ + 1, x, _, [] => (some .eof, x, [])
  | n + 1, x, s, b :: rest =>
    if b < 128 then
      if n = 0 ∧ 1 < b then (some .overflow, x, rest)
      else (none, x ||| (b <<< s), rest)
    else readUvarintLoop n (x ||| ((b % 128) <<< s)) (s + 7) rest

/-- Model of `binary.ReadUvarint` on the buffer: read up to 10 bytes of a base-128
varint. -/
def readUvarint (bs : List Nat) : Option GoErr × Nat × List Nat :=
  readUvarintLoop 10 0 0 bs

/-- Model of `io.ReadFull` of `n` bytes from the buffer: on success consumes exactly
`n` bytes; with fewer than `n` bytes available it consumes everything and
fails (`io.EOF` if nothing was read, `io.ErrUnexpectedEOF` otherwise).
The middle component is the bytes read. -/
def readFull (n : Nat) (bs : List Nat) : Option GoErr × List Nat × List Nat :=
  if n ≤ bs.length then (none, bs.take n, bs.drop n)
  else if bs.length = 0 then (some .eof, bs, [])
  else (some .unexpectedEof, bs, [])

/-- Big-endian bytes of a `w`-byte unsigned value, as written by
`binary.Write(p, binary.BigEndian, v)`. -/
def beBytes : Nat → Nat → List Nat
  | 0, _ => []
  | w + 1, n => (n / 256 ^ w) % 256 :: beBytes w n

/-- Unsigned big-endian value of a byte list, as assembled by
`binary.Read(p, binary.BigEndian, &out)`. -/
def beVal (bs : List Nat) : Nat := bs.foldl (fun a b => a * 256 + b % 256) 0

/-- Signed (two's complement) big-endian value of a `w`-byte list. -/
def sbeVal (w : Nat) (bs : List Nat) : Int :=
  let u := beVal bs
  if u < 256 ^ w / 2 then (u : Int) else (u : Int) - 256 ^ w

/-- Two's complement byte image of a signed `w*8`-bit value. -/
def sbeBytes (w : Nat) (i : Int) : List Nat := beBytes w (i % (256 ^ w : Nat)).toNat

/-- Number of binary digits of a natural number (`bit_length`). -/
def bitLen (n : Nat) : Nat :=
  if n = 0 then 0 else bitLen (n / 2) + 1
termination_by n
decreasing_by
  exact Nat.div_lt_self (by omega) (by omega)



/-- Static Go types as seen by the codec's reflection dispatch.  The
primitive constructors are the types enumerated by `marshalPrimitive` /
`unmarshalPrimitive`; `tU64`, `tI64` and `tInt` are Go's `uint64`, `int64`
and `int`, which reach the reflection `default` branches but match no case
of the primitive type switches. -/
inductive GoType : Type where
  | tVarInt
  | tBool
  | tU8
  | tU16
  | tU32
  | tI8
  | tI16
  | tI32
  | tF32
  | tF64
  | tStr
  | tU64
  | tI64
  | tInt
  | tStruct (fields : List GoType)
  | tSlice (elem : GoType)
  | tMap (key : GoType) (val : GoType)

/-- Go values of the shapes the codec walks.  Unsigned machine integers are
`Nat`, signed ones `Int`, floats their IEEE bit patterns, strings their
UTF-8 bytes.  A slice value carries its static element type (Go reflection
branches on `t.Elem().Kind()` even for an empty slice); a map carries its
key and value types and its entries in the iteration order the Go runtime
happened to produce. -/
inductive GoVal : Type where
  | vVarInt (n : Nat)
  | vBool (b : Bool)
  | vU8 (n : Nat)
  | vU16 (n : Nat)
  | vU32 (n : Nat)
  | vI8 (i : Int)
  | vI16 (i : Int)
  | vI32 (i : Int)
  | vF32 (bits : Nat)
  | vF64 (bits : Nat)
  | vStr (s : List Nat)
  | vU64 (n : Nat)
  | vI64 (i : Int)
  | vInt (i : Int)
  | vStruct (fields : List GoVal)
  | vSlice (elem : GoType) (elems : List GoVal)
  | vMap (key : GoType) (val : GoType) (entries : List (GoVal × GoVal))

mutual

/-- Zero value of a Go type: what a freshly allocated destination field
holds before the decoder touches it (numeric zero, false, empty string,
nil slice, nil map, recursively zeroed struct). -/
def zeroVal : GoType → GoVal
  | .tVarInt => .vVarInt 0
  | .tBool => .vBool false
  | .tU8 => .vU8 0
  | .tU16 => .vU16 0
  | .tU32 => .vU32 0
  | .tI8 => .vI8 0
  | .tI16 => .vI16 0
  | .tI32 => .vI32 0
  | .tF32 => .vF32 0
  | .tF64 => .vF64 0
  | .tStr => .vStr []
  | .tU64 => .vU64 0
  | .tI64 => .vI64 0
  | .tInt => .vInt 0
  | .tStruct fs => .vStruct (zeroVals fs)
  | .tSlice t => .vSlice t []
  | .tMap k v => .vMap k v []

/-- Zero values of a list of field types. -/
def zeroVals : List GoType → List GoVal
  | [] => []
  | t :: ts => zeroVal t :: zeroVals ts
end

/-- Primitive writer `marshalPrimitive` (encoder.go lines 180-199): a type
switch on the concrete value.  `VarInt` goes through `WriteVarInt`; `bool`
and the fixed-width numerics go through big-endian `binary.Write` (one byte
`1`/`0` for `bool`); `string` goes through `WriteString` (varint length,
then the raw bytes); any other type matches no case, so nothing is written
and no error is returned.  Writes to the underlying `bytes.Buffer` cannot
fail, so the Go error result is always nil and the model returns only the
appended bytes. -/
def marshalPrimitive : GoVal → List Nat
  | .vVarInt n => putUvarint n
  | .vBool b => if b then [1] else [0]
  | .vU8 n => beBytes 1 n
  | .vU16 n => beBytes 2 n
  | .vU32 n => beBytes 4 n
  | .vI8 i => sbeBytes 1 i
  | .vI16 i => sbeBytes 2 i
  | .vI32 i => sbeBytes 4 i
  | .vF32 bits => beBytes 4 bits
  | .vF64 bits => beBytes 8 bits
  | .vStr s => putUvarint s.length ++ s.map (· % 256)
  | _ => []

mutual

/-- Recursive writer `marshalValue` (encoder.go lines 87-116): dispatch on
the reflection kind — struct fields in declared order, slices through
`marshalSlice` (count, then elements), maps through `marshalMap` (count,
then key/value pairs), everything else through `marshalPrimitive`. -/
def marshalValue : GoVal → List Nat
  | .vStruct fs => marshalFields fs
  | .vSlice t es => putUvarint es.length ++ marshalElems t es
  | .vMap _ _ en => putUvarint en.length ++ marshalEntries en
  | v => marshalPrimitive v

/-- Field loop of `marshalValue`'s `reflect.Struct` case: each field is
written in declared order (the loop assigns the recursive call's error to
`err` without returning early, but buffer writes cannot fail). -/
def marshalFields : List GoVal → List Nat
  | [] => []
  | f :: fs => marshalValue f ++ marshalFields fs

/-- Element loop of `marshalSlice` (encoder.go lines 118-154): after the
varint element count, the element-kind switch sends struct elements to
`marshalValue`, slice elements to `marshalSlice` (same as `marshalValue`
on a slice), and everything else — including byte elements, there is no
byte special case on the write side — to `marshalPrimitive`. -/
def marshalElems : GoType → List GoVal → List Nat
  | _, [] => []
  | t, e :: es =>
    (match t with
      | .tStruct _ => marshalValue e
      | .tSlice _ => marshalValue e
      | _ => marshalPrimitive e) ++ marshalElems t es

/-- Entry loop of `marshalMap` (encoder.go lines 156-178): for each entry
in iteration order, the key through `marshalPrimitive`, then the value
through `marshalValue`. -/
def marshalEntries : List (GoVal × GoVal) → List Nat
  | [] => []
  | (k, v) :: en => marshalPrimitive k ++ marshalValue v ++ marshalEntries en

end

/-- Packet envelope writer `MarshalPacket` (encoder.go lines 67-77):
`WriteVarInt(packet.Id)` followed by the value-codec encoding of
`packet.Data`. -/
def MarshalPacket (id : Nat) (data : GoVal) : List Nat :=
  putUvarint id ++ marshalValue data

/-- Primitive reader `unmarshalPrimitive` (encoder.go lines 312-383): a
type switch on the destination's concrete type.  `VarInt` reads a varint;
the fixed-width numerics read big-endian bytes into a typed `out`
variable; `string` reads a varint length and then that many bytes.  The
`bool` case is special: it passes `&v` — a pointer to an `interface{}` —
to `binary.Read`, which rejects it with the `invalid type` error before
reading any byte, so decoding a `bool` always fails and consumes nothing.
A destination type matching no case (such as `uint64`, `int64`, `int`, or
the pointer-typed keys `unmarshalMap` passes in) reads nothing and returns
no error.  On any error the destination field is left untouched, i.e. at
its zero value. -/
def unmarshalPrimitive : GoType → List Nat → Option GoErr × GoVal × List Nat
  | .tVarInt, bs =>
    match readUvarint bs with
    | (some e, _, rest) => (some e, .vVarInt 0, rest)
    | (none, v, rest) => (none, .vVarInt v, rest)
  | .tU8, bs =>
    match readFull 1 bs with
    | (some e, _, rest) => (some e, .vU8 0, rest)
    | (none, l, rest) => (none, .vU8 (beVal l), rest)
  | .tU16, bs =>
    match readFull 2 bs with
    | (some e, _, rest) => (some e, .vU16 0, rest)
    | (none, l, rest) => (none, .vU16 (beVal l), rest)
  | .tU32, bs =>
    match readFull 4 bs with
    | (some e, _, rest) => (some e, .vU32 0, rest)
    | (none, l, rest) => (none, .vU32 (beVal l), rest)
  | .tI8, bs =>
    match readFull 1 bs with
    | (some e, _, rest) => (some e, .vI8 0, rest)
    | (none, l, rest) => (none, .vI8 (sbeVal 1 l), rest)
  | .tI16, bs =>
    match readFull 2 bs with
    | (some e, _, rest) => (some e, .vI16 0, rest)
    | (none, l, rest) => (none, .vI16 (sbeVal 2 l), rest)
  | .tI32, bs =>
    match readFull 4 bs with
    | (some e, _, rest) => (some e, .vI32 0, rest)
    | (none, l, rest) => (none, .vI32 (sbeVal 4 l), rest)
  | .tF32, bs =>
    match readFull 4 bs with
    | (some e, _, rest) => (some e, .vF32 0, rest)
    | (none, l, rest) => (none, .vF32 (beVal l), rest)
  | .tF64, bs =>
    match readFull 8 bs with
    | (some e, _, rest) => (some e, .vF64 0, rest)
    | (none, l, rest) => (none, .vF64 (beVal l), rest)
  | .tBool, bs => (some .invalidType, .vBool false, bs)
  | .tStr, bs =>
    match readUvarint bs with
    | (some e, _, rest) => (some e, .vStr [], rest)
    | (none, l, rest) =>
      match readFull l rest with
      | (some e, _, rest2) => (some e, .vStr [], rest2)
      | (none, s, rest2) => (none, .vStr s, rest2)
  | t, bs => (none, zeroVal t, bs)

/-- Test for the `reflect.Uint8` element kind in `unmarshalSlice`'s
switch. -/
def GoType.isU8 : GoType → Bool
  | .tU8 => true
  | _ => false

mutual

/-- Recursive reader `unmarshalValue` (encoder.go lines 205-236): dispatch
on the destination kind.  The struct case runs `err =
unmarshalValue(p, fb)` over the fields WITHOUT returning early, so an
early field's error is overwritten by later fields and only the last
field's error survives; slice, map and primitive errors are returned
immediately. -/
def unmarshalValue : GoType → List Nat → Option GoErr × GoVal × List Nat
  | .tStruct fs, bs =>
    match unmarshalFields fs bs with
    | (e, vs, rest) => (e, .vStruct vs, rest)
  | .tSlice t, bs => unmarshalSlice t bs
  | .tMap kt vt, bs =>
    match readUvarint bs with
    | (some e, _, rest) => (some e, .vMap kt vt [], rest)
    | (none, count, rest) =>
      match unmarshalMapEntries vt count rest with
      | (e, rest2) => (e, .vMap kt vt [], rest2)
  | t, bs => unmarshalPrimitive t bs
termination_by t _ => (sizeOf t, 0, 0)

/-- Field loop of `unmarshalValue`'s `reflect.Struct` case.  Every field
is attempted in order regardless of earlier errors, and the error
returned is the one of the LAST field (Go's `err` is overwritten on each
iteration and returned after the loop; with no fields it stays nil). -/
def unmarshalFields : List GoType → List Nat → Option GoErr × List GoVal × List Nat
  | [], bs => (none, [], bs)
  | t :: ts, bs =>
    match unmarshalValue t bs with
    | (e1, v, rest) =>
      match unmarshalFields ts rest with
      | (e2, vs, rest2) => (if ts.isEmpty then e1 else e2, v :: vs, rest2)
termination_by fs _ => (sizeOf fs, 0, 0)

/-- Slice reader `unmarshalSlice` (encoder.go lines 238-288): read the
varint element count, allocate `MakeSlice(t, l, l)` and set the field to
it, then branch on the element kind — struct and slice elements decode
recursively, byte elements (`reflect.Uint8`) are read as one `io.ReadFull`
run whose result replaces the slice via `SetBytes`, and any other element
kind goes through `unmarshalPrimitive` per element.  A failed count read
returns before the field is set (it keeps its nil zero value); a failed
element read returns with the decoded prefix in place and the remaining
elements still zero. -/
def unmarshalSlice (t : GoType) (bs : List Nat) : Option GoErr × GoVal × List Nat :=
  match readUvarint bs with
  | (some e, _, rest) => (some e, .vSlice t [], rest)
  | (none, l, rest) =>
    if t.isU8 then
      match readFull l rest with
      | (some e, _, rest2) => (some e, .vSlice t (List.replicate l (zeroVal t)), rest2)
      | (none, buff, rest2) => (none, .vSlice t (buff.map .vU8), rest2)
    else
      match unmarshalSliceElems t l rest with
      | (e, vs, rest2) => (e, .vSlice t vs, rest2)
termination_by (sizeOf t, 1, 0)

/-- Element loop of `unmarshalSlice` for non-byte elements: struct and
slice element kinds decode through `unmarshalValue` (for a slice element
`unmarshalSlice` on its element type, which is what `unmarshalValue` does
on a slice destination); a map element kind falls into the `default`
branch, where `unmarshalPrimitive` matches no case and reads nothing; on
the first error the loop returns, leaving the later elements at their
zero values. -/
def unmarshalSliceElems (t : GoType) : Nat → List Nat → Option GoErr × List GoVal × List Nat
  | 0, bs => (none, [], bs)
  | n + 1, bs =>
    match
      (match t with
        | .tStruct fs => unmarshalValue (.tStruct fs) bs
        | .tSlice t2 => unmarshalValue (.tSlice t2) bs
        | _ => unmarshalPrimitive t bs) with
    | (some e, v, rest) => (some e, v :: List.replicate n (zeroVal t), rest)
    | (none, v, rest) =>
      match unmarshalSliceElems t n rest with
      | (e2, vs, rest2) => (e2, v :: vs, rest2)
termination_by n _ => (sizeOf t, 0, n)

/-- Entry loop of `unmarshalMap` (encoder.go lines 290-310): read the
varint entry count, then per entry decode a key and a value into freshly
allocated `reflect.New` cells and DISCARD them — the destination map field
is never written.  The key cell is a pointer, so `unmarshalPrimitive`
matches no case for it and consumes no bytes; the value decodes through
`unmarshalValue` and its error returns immediately. -/
def unmarshalMapEntries (vt : GoType) : Nat → List Nat → Option GoErr × List Nat
  | 0, bs => (none, bs)
  | n + 1, bs =>
    match unmarshalValue vt bs with
    | (some e, _, rest) => (some e, rest)
    | (none, _, rest) => unmarshalMapEntries vt n rest
termination_by n _ => (sizeOf vt, 0, n)

end

/-- Packet payload reader `UnMarshalPacket` (encoder.go lines 201-203):
decode the buffer into the pointed-to destination value. -/
def UnMarshalPacket (t : GoType) (bs : List Nat) : Option GoErr × GoVal × List Nat :=
  unmarshalValue t bs


/-- Packet structure from net.go lines 19-22: a numeric id (Go `int`) and
an arbitrary data payload, whose Lean type is a parameter. -/
structure GoPacket (α : Type) where
  Id : Int
  Data : α
deriving DecidableEq

/-- Connection state from net.go lines 51-56: the `Open` flag plus the
underlying websocket transport, which the model observes through the list
of message frames handed to its send primitive (in order).  The write lock
serialises `Send` bodies; a single `Send` call is modelled as one atomic
trace append. -/
structure Connection : Type where
  Open : Bool
  sent : List (List Nat)
deriving DecidableEq

/-- Connection.Send (net.go lines 60-66): if the connection is open,
acquire the lock, hand `WriteJSON(packet)` — the JSON text encoding of the
whole packet, produced by the `writeJSON` collaborator — to the transport,
and release the lock; if the connection is not open, do nothing at all.
The `WriteJSON` error is discarded (`_ =`), so `Send` never reports
anything either way. -/
def Connection.Send {α : Type} (writeJSON : GoPacket α → List Nat)
    (conn : Connection) (packet : GoPacket α) : Connection :=
  if conn.Open then { conn with sent := conn.sent ++ [writeJSON packet] } else conn

/-- Close handler installed by `UpgradeAndListen` (net.go lines 85-89): on
the transport's close notification the connection's `Open` flag is set to
false.  Nothing in net.go ever sets it back to true, so `Closed` is
terminal. -/
def closeConn (conn : Connection) : Connection := { conn with Open := false }

/-- Dispatcher state from net.go lines 26-29: the handler table maps a
packet id to its decode-and-invoke closure, and `ErrorHandler` may be
unset (nil).  A closure is modelled by what it observably does: given the
packet's payload it either invokes the user callback (`true`) or silently
does nothing (`false`). -/
structure PacketSystem (α : Type) where
  Handlers : Int → Option (α → Bool)
  errHandlerSet : Bool

/-- Errors surfaced by `DecodePacket` (net.go lines 124-140): a transport
read/JSON-decode error passed through, or the `No packet handler for
packet id` error built for an unregistered id. -/
inductive NetErr : Type where
  | readErr
  | unknownPacket (id : Int)
deriving DecidableEq

/-- One inbound event as `ReadJSON` reports it: either a packet decoded
from the JSON message, or a read/decode failure. -/
inductive InMsg (α : Type) where
  | jsonOk (p : GoPacket α)
  | jsonErr
deriving DecidableEq

/-- AddHandler (net.go lines 111-119): registers, for `id`, a closure that
decodes the packet's payload into a fresh struct with `mapstructure.Decode`
and calls the user handler only when that decode returned nil — a decode
error is silently swallowed (no error callback, no propagation).  The
`mapstructure` collaborator is a parameter: `msDecode d = some t` models a
nil-error decode producing `t`. -/
def AddHandler {α T : Type} (s : PacketSystem α) (id : Int)
    (msDecode : α → Option T) : PacketSystem α :=
  { s with Handlers := fun i => if i = id then some (fun d => (msDecode d).isSome) else s.Handlers i }

/-- DecodePacket (net.go lines 124-140): on a read error, return it only
while the connection is open (errors on a closed connection are ignored);
otherwise look up the packet id and either return the `unknownPacket`
error or run the handler closure.  Results: the returned error, and
whether a user callback was invoked. -/
def DecodePacket {α : Type} (s : PacketSystem α) (c : Connection) (m : InMsg α) :
    Option NetErr × Bool :=
  match m with
  | .jsonErr => (if c.Open then some .readErr else none, false)
  | .jsonOk p =>
    match s.Handlers p.Id with
    | none => (some (.unknownPacket p.Id), false)
    | some h => (none, h p.Data)

/-- One iteration of the receive loop in `UpgradeAndListen` (net.go lines
100-105): run `DecodePacket`; if it returned an error and an error handler
is set, report the error to it.  The loop body never touches the
connection state, so the `for conn.Open` condition is unchanged by an
iteration.  Results: the connection afterwards, the errors reported to the
error callback, and whether a user packet callback ran. -/
def loopStep {α : Type} (s : PacketSystem α) (c : Connection) (m : InMsg α) :
    Connection × List NetErr × Bool :=
  match DecodePacket s c m with
  | (some e, invoked) => (c, if s.errHandlerSet then [e] else [], invoked)
  | (none, invoked) => (c, [], invoked)

/-- Decimal ASCII digits of a natural number, as `encoding/json` prints
integers. -/
def decBytes (n : Nat) : List Nat :=
  if n < 10 then [48 + n] else decBytes (n / 10) ++ [48 + n % 10]
termination_by n
decreasing_by
  exact Nat.div_lt_self (by omega) (by omega)

/-- Decimal ASCII of a Go `int` (minus sign, then digits). -/
def intDecBytes (i : Int) : List Nat :=
  if i < 0 then 45 :: decBytes (-i).toNat else decBytes i.toNat

/-- Test record from net_test.go: `TestPacket{Name string, User uint8}`.
The name is carried as its UTF-8 bytes. -/
structure TestPacket where
  Name : List Nat
  User : Nat
deriving DecidableEq

/-- Behaviour of the `WriteJSON` collaborator (gorilla/websocket, which
runs `encoding/json` on the packet and appends a newline) at the concrete
`Packet{Id int "json:id", Data TestPacket "json:data"}` shape: the object
`\x7b"id":<id>,"data":\x7b"Name":"<name>","User":<user>\x7d\x7d` followed by
a line feed, with struct fields in declaration order.  Valid for names
needing no JSON escaping, which covers the concrete packets used here. -/
def writeJSONTestPacket (p : GoPacket TestPacket) : List Nat :=
  [123, 34, 105, 100, 34, 58] ++ intDecBytes p.Id ++
    [44, 34, 100, 97, 116, 97, 34, 58, 123, 34, 78, 97, 109, 101, 34, 58, 34] ++
    p.Data.Name ++ [34, 44, 34, 85, 115, 101, 114, 34, 58] ++ decBytes p.Data.User ++
    [125, 125, 10]

/-- UTF-8 bytes of the string `Jacob` used by the tests. -/
def jacobBytes : List Nat := [74, 97, 99, 111, 98]

/-- Payload decoder used in the C6 instances: decoding the boolean payload
`true` succeeds, decoding `false` fails (a stand-in for a concrete
`mapstructure.Decode` type-mismatch failure). -/
def msDecodeTrueOnly : Bool → Option Unit := fun d => if d then some () else none

/-- Byte-run wire form the spec describes for a byte sequence: the element
count as a varint followed by the raw bytes as one run. -/
def byteRunBytes (bs : List Nat) : List Nat := putUvarint bs.length ++ bs

/-- The generic per-element encoding path of `marshalSlice` applied to a
byte-element sequence: the varint count followed by `marshalPrimitive` per
element, which is the branch the write side actually takes (there is no
byte special case in `marshalSlice`). -/
def genericByteSliceBytes (bs : List Nat) : List Nat :=
  putUvarint bs.length ++ marshalElems .tU8 (bs.map .vU8)

lemma putUvarint_lt {x : Nat} (h : x < 128) : putUvarint x = [x] := by
  rw [putUvarint]; simp [h]

lemma putUvarint_ge {x : Nat} (h : 128 ≤ x) :
    putUvarint x = (x % 128 + 128) :: putUvarint (x / 128) := by
  rw [putUvarint]; simp [Nat.not_lt.2 h]

lemma bitLen_zero : bitLen 0 = 0 := by rw [bitLen]; simp

lemma bitLen_pos {n : Nat} (h : n ≠ 0) : bitLen n = bitLen (n / 2) + 1 := by
  rw [bitLen]; simp [h]

lemma decBytes_lt {n : Nat} (h : n < 10) : decBytes n = [48 + n] := by
  rw [decBytes]; simp [h]


/-- C9: once a connection has transitioned to the Closed state (the close
handler cleared `Open`, and nothing ever sets it back), every subsequent
`Send` call — any number of them — leaves the connection state and the
transport trace unchanged: no transport write happens, nothing is queued,
and `Send` returns nothing to report an error with. -/
theorem send_after_close_silent_noop {α : Type} (writeJSON : GoPacket α → List Nat)
    (c : Connection) (ps : List (GoPacket α)) :
    ps.foldl (Connection.Send writeJSON) (closeConn c) = closeConn c := by
  induction ps with
  | nil => rfl
  | cons p ps ih => simpa [Connection.Send, closeConn] using ih

/-- C7 (code evaluation): encoding `true` writes the single byte 1 and
`false` the single byte 0, as the claim states; but decoding a bool never
accepts anything — `unmarshalPrimitive`'s bool case hands `binary.Read` a
pointer to an `interface{}`, which fails with the `invalid type` error
before consuming a byte, for the zero byte and nonzero bytes alike. -/
theorem bool_codec_eval :
    marshalPrimitive (.vBool true) = [1] ∧
    marshalPrimitive (.vBool false) = [0] ∧
    unmarshalPrimitive .tBool [0] = (some .invalidType, .vBool false, [0]) ∧
    unmarshalPrimitive .tBool [1] = (some .invalidType, .vBool false, [1]) ∧
    unmarshalPrimitive .tBool [2] = (some .invalidType, .vBool false, [2]) :=
  ⟨rfl, rfl, rfl, rfl, rfl⟩

/-- C2 (code evaluation): the round trip fails already for a record with a
single bool field — `Encode` produces the byte 1 for the record holding
`true`, and `Decode` of that byte returns the `invalid type` error with
the field still false, instead of the original record.  It also fails for
a record with one single-entry map field: the entry bytes are read but
discarded (and misaligned, the value read where the key was written), so
decoding returns success with an EMPTY map and a leftover byte instead of
the one-entry original. -/
theorem roundtrip_fails_on_bool_field :
    marshalValue (.vStruct [.vBool true]) = [1] ∧
    unmarshalValue (.tStruct [.tBool]) (marshalValue (.vStruct [.vBool true])) =
      (some .invalidType, .vStruct [.vBool false], [1]) ∧
    marshalValue (.vStruct [.vMap .tU8 .tU8 [(.vU8 3, .vU8 4)]]) = [1, 3, 4] ∧
    unmarshalValue (.tStruct [.tMap .tU8 .tU8]) [1, 3, 4] =
      (none, .vStruct [.vMap .tU8 .tU8 []], [4]) := by
  refine ⟨?_, ?_, ?_, ?_⟩
  · simp [marshalValue, marshalFields, marshalPrimitive]
  · simp [marshalValue, marshalFields, marshalPrimitive,
      unmarshalValue, unmarshalFields, unmarshalPrimitive]
  · simp [marshalValue, marshalFields, marshalEntries, marshalPrimitive,
      beBytes, putUvarint_lt]
  · simp [unmarshalValue, unmarshalFields, unmarshalMapEntries,
      unmarshalPrimitive, readUvarint, readUvarintLoop, readFull, beVal]

/-- C3 (code evaluation): decoding `{A VarInt, B uint8}` from ten
continuation bytes followed by 0x07, the first field's varint read fails
with overflow (second conjunct) after consuming ten bytes — yet the struct
loop keeps going, field B is processed and reads 7, the loop's `err` is
overwritten, and the whole call returns success. -/
theorem first_failure_not_aborting :
    unmarshalValue (.tStruct [.tVarInt, .tU8]) (List.replicate 10 255 ++ [7]) =
      (none, .vStruct [.vVarInt 0, .vU8 7], []) ∧
    unmarshalPrimitive .tVarInt (List.replicate 10 255 ++ [7]) =
      (some .overflow, .vVarInt 0, [7]) := by
  constructor
  · simp [unmarshalValue, unmarshalFields, unmarshalPrimitive,
      readUvarint, readUvarintLoop, readFull, beVal]
  · simp [unmarshalPrimitive, readUvarint, readUvarintLoop]

/-- C4 (code evaluation): `{A uint8, B struct\x7b\x7d}` with `A = 5` has the
valid one-byte encoding `[5]`; decoding its empty strict prefix does NOT
fail — field A's read error is overwritten when the loop reaches the
zero-byte field B, and the call returns success with the wrong value
`{A = 0}`. -/
theorem truncated_prefix_decode_eval :
    marshalValue (.vStruct [.vU8 5, .vStruct []]) = [5] ∧
    unmarshalValue (.tStruct [.tU8, .tStruct []]) [] =
      (none, .vStruct [.vU8 0, .vStruct []], []) := by
  constructor
  · simp [marshalValue, marshalFields, marshalPrimitive, beBytes]
  · simp [unmarshalValue, unmarshalFields, unmarshalPrimitive, readFull]

/-- C10: a record field whose static type matches no case of the primitive
type switches — `uint64`, `int64`, `int` — is silently skipped on both
sides: the encoder appends no bytes and the decoder consumes none, neither
reports an error, and consequently such a field is simply absent from the
wire form of its record. -/
theorem unsupported_kinds_silently_skipped :
    (∀ n : Nat, marshalPrimitive (.vU64 n) = []) ∧
    (∀ i : Int, marshalPrimitive (.vI64 i) = []) ∧
    (∀ i : Int, marshalPrimitive (.vInt i) = []) ∧
    (∀ bs, unmarshalPrimitive .tU64 bs = (none, .vU64 0, bs)) ∧
    (∀ bs, unmarshalPrimitive .tI64 bs = (none, .vI64 0, bs)) ∧
    (∀ bs, unmarshalPrimitive .tInt bs = (none, .vInt 0, bs)) ∧
    (∀ pre post (n : Nat), marshalValue (.vStruct (pre ++ .vU64 n :: post)) =
      marshalValue (.vStruct (pre ++ post))) := by
  refine ⟨fun _ => rfl, fun _ => rfl, fun _ => rfl,
    fun _ => rfl, fun _ => rfl, fun _ => rfl, fun pre post n => ?_⟩
  induction pre with
  | nil => simp [marshalValue, marshalFields, marshalPrimitive]
  | cons f fs ih =>
    simp only [List.cons_append] at ih ⊢
    simp only [marshalValue, marshalFields] at ih ⊢
    simp [ih]

/-- C1 (counterexample): sending the test packet `{Id 2, Data {Name
"Jacob", User 2}}` on an open connection hands the transport the JSON text
of the packet, not the binary envelope `WriteVarInt(2)` followed by the
Value-codec bytes of the record — the two byte strings differ already in
their first byte (0x7b versus 0x02). -/
theorem send_is_not_binary_envelope :
    (Connection.Send writeJSONTestPacket (Connection.mk true [])
        (GoPacket.mk 2 (TestPacket.mk jacobBytes 2))).sent ≠
      [MarshalPacket 2 (.vStruct [.vStr jacobBytes, .vU8 2])] := by
  have h2 : intDecBytes 2 = [50] := by
    rw [intDecBytes]; simp; rw [decBytes_lt (by norm_num)]
  simp [Connection.Send, writeJSONTestPacket, h2, jacobBytes,
    MarshalPacket, marshalValue, marshalFields, marshalPrimitive, putUvarint_lt]

/-- C1 (amended): for every packet sent on an open connection, `Send`
passes exactly the JSON encoding of the packet — one complete message
appended to the transport trace — to the transport's send primitive; the
binary envelope `MarshalPacket` exists in the codec but `Send` does not
call it. -/
theorem send_passes_json_encoding {α : Type} (writeJSON : GoPacket α → List Nat)
    (c : Connection) (p : GoPacket α) (h : c.Open = true) :
    (Connection.Send writeJSON c p).sent = c.sent ++ [writeJSON p] := by
  simp [Connection.Send, h]

/-- Witness for the amended C1 theorem at the concrete test packet. -/
theorem send_passes_json_encoding_witness :
    (Connection.mk true []).Open = true ∧
    (Connection.Send writeJSONTestPacket (Connection.mk true [])
        (GoPacket.mk 2 (TestPacket.mk jacobBytes 2))).sent =
      (Connection.mk true []).sent ++
        [writeJSONTestPacket (GoPacket.mk 2 (TestPacket.mk jacobBytes 2))] :=
  ⟨rfl, send_passes_json_encoding writeJSONTestPacket (Connection.mk true [])
    (GoPacket.mk 2 (TestPacket.mk jacobBytes 2)) rfl⟩

/-- C6 (counterexample): a system with an error handler set and a handler
registered for id 5 receives a well-read message with id 5 whose payload
fails the handler's `mapstructure` decode — the loop iteration reports
NOTHING to the error callback (second component `[]`) and invokes no user
callback, contradicting the claim that payload decode failures are
reported through the error callback. -/
theorem payload_decode_failure_not_reported :
    loopStep (AddHandler (PacketSystem.mk (fun _ => none) true) 5 msDecodeTrueOnly)
        (Connection.mk true []) (.jsonOk (GoPacket.mk 5 false)) =
      (Connection.mk true [], [], false) := by
  simp [loopStep, DecodePacket, AddHandler, msDecodeTrueOnly]

/-- C6 (amended): for inbound messages, a message-level read/JSON-decode
failure (while the connection is open) and an id with no registered
handler are both reported through the user-supplied error callback and are
never fatal — the dispatch leaves the connection state untouched, so the
`for conn.Open` loop keeps running; but a payload decode failure inside a
registered handler's `mapstructure` stage is silently swallowed: the user
callback is not invoked and nothing reaches the error callback. -/
theorem inbound_error_reporting {α T : Type} (s : PacketSystem α) (c : Connection)
    (id : Int) (d : α) (msDecode : α → Option T) (m : InMsg α)
    (hOpen : c.Open = true) (hErr : s.errHandlerSet = true) :
    (s.Handlers id = none →
      loopStep s c (.jsonOk (GoPacket.mk id d)) = (c, [.unknownPacket id], false)) ∧
    (msDecode d = none →
      loopStep (AddHandler s id msDecode) c (.jsonOk (GoPacket.mk id d)) = (c, [], false)) ∧
    loopStep s c .jsonErr = (c, [.readErr], false) ∧
    (loopStep s c m).1.Open = true := by
  refine ⟨fun hNone => ?_, fun hDec => ?_, ?_, ?_⟩
  · simp [loopStep, DecodePacket, hNone, hErr]
  · simp [loopStep, DecodePacket, AddHandler, hDec]
  · simp [loopStep, DecodePacket, hOpen, hErr]
  · rcases m with p | _
    · rcases h : s.Handlers p.Id with _ | hh <;> simp [loopStep, DecodePacket, h, hOpen]
    · simp [loopStep, DecodePacket, hOpen]

/-- Witness for the amended C6 theorem: an empty handler table with the
error callback set, an open connection, id 5, the failing payload `false`
and the `msDecodeTrueOnly` decoder. -/
theorem inbound_error_reporting_witness :
    (Connection.mk true []).Open = true ∧
    (PacketSystem.mk (fun _ : Int => (none : Option (Bool → Bool))) true).errHandlerSet = true ∧
    (((PacketSystem.mk (fun _ : Int => (none : Option (Bool → Bool))) true).Handlers 5 = none →
        loopStep (PacketSystem.mk (fun _ : Int => (none : Option (Bool → Bool))) true)
            (Connection.mk true []) (.jsonOk (GoPacket.mk 5 false)) =
          (Connection.mk true [], [.unknownPacket 5], false)) ∧
      (msDecodeTrueOnly false = none →
        loopStep (AddHandler (PacketSystem.mk (fun _ : Int => (none : Option (Bool → Bool))) true)
              5 msDecodeTrueOnly) (Connection.mk true []) (.jsonOk (GoPacket.mk 5 false)) =
          (Connection.mk true [], [], false)) ∧
      loopStep (PacketSystem.mk (fun _ : Int => (none : Option (Bool → Bool))) true)
          (Connection.mk true []) .jsonErr = (Connection.mk true [], [.readErr], false) ∧
      (loopStep (PacketSystem.mk (fun _ : Int => (none : Option (Bool → Bool))) true)
          (Connection.mk true []) (.jsonOk (GoPacket.mk 5 false))).1.Open = true) :=
  ⟨rfl, rfl, inbound_error_reporting (PacketSystem.mk (fun _ : Int => none) true)
    (Connection.mk true []) 5 false msDecodeTrueOnly (.jsonOk (GoPacket.mk 5 false)) rfl rfl⟩

lemma putLen_lt {x : Nat} (h : x < 128) : putLen x = 1 := by
  simp [putLen, putUvarint_lt h]

lemma putLen_ge {x : Nat} (h : 128 ≤ x) : putLen x = putLen (x / 128) + 1 := by
  simp [putLen, putUvarint_ge h]

lemma putLen_pos (x : Nat) : 1 ≤ putLen x := by
  by_cases h : x < 128
  · simp [putLen_lt h]
  · rw [putLen_ge (Nat.not_lt.1 h)]; omega

lemma putLen_le : ∀ (k x : Nat), 1 ≤ k → x < 2 ^ (7 * k) → putLen x ≤ k := by
  intro k
  induction k with
  | zero => intro x h; omega
  | succ k ih =>
    intro x _ hx
    by_cases hs : x < 128
    · rw [putLen_lt hs]; omega
    · have h128 : 128 ≤ x := Nat.not_lt.1 hs
      have hk : 1 ≤ k := by
        rcases Nat.eq_zero_or_pos k with rfl | hk
        · norm_num at hx; omega
        · exact hk
      have hdiv : x / 128 < 2 ^ (7 * k) := by
        have hmul : x < 128 * 2 ^ (7 * k) := by
          have : (2 : Nat) ^ (7 * (k + 1)) = 128 * 2 ^ (7 * k) := by
            rw [show 7 * (k + 1) = 7 + 7 * k by ring, pow_add]; norm_num
          omega
        exact Nat.div_lt_of_lt_mul hmul
      rw [putLen_ge h128]
      have := ih (x / 128) hk hdiv
      omega

/-- Splitting a shifted value into its low 7-bit group and the shifted
rest, the way one `readUvarintLoop` iteration accumulates it. -/
lemma varint_group_lor (v s : Nat) :
    ((v % 128) <<< s) ||| ((v / 128) <<< (s + 7)) = v <<< s := by
  have e1 : v % 128 = v % 2 ^ 7 := by norm_num
  have e2 : v / 128 = v >>> 7 := by rw [Nat.shiftRight_eq_div_pow]
  rw [e1, e2]
  apply Nat.eq_of_testBit_eq
  intro i
  simp only [Nat.testBit_lor, Nat.testBit_shiftLeft, Nat.testBit_mod_two_pow,
    Nat.testBit_shiftRight, ge_iff_le]
  by_cases h1 : s ≤ i
  · by_cases h2 : s + 7 ≤ i
    · have h3 : ¬ (i - s < 7) := by omega
      have e3 : 7 + (i - (s + 7)) = i - s := by omega
      simp [h1, h2, h3, e3]
    · have h3 : i - s < 7 := by omega
      simp [h1, h2, h3]
  · have h2 : ¬ (s + 7 ≤ i) := by omega
    simp [h1, h2]

/-- Reading back an encoded varint: with enough loop fuel left, and with
the final 7-bit group small enough whenever the encoding exactly exhausts
the fuel (which is what the overflow check at the tenth byte tests),
`readUvarintLoop` consumes exactly the bytes `putUvarint` wrote and ors
the value, shifted by the current position, into the accumulator. -/
lemma readUvarintLoop_putUvarint :
    ∀ (v fuel x s : Nat) (rest : List Nat),
      putLen v ≤ fuel →
      (putLen v = fuel → v / 128 ^ (fuel - 1) ≤ 1) →
      readUvarintLoop fuel x s (putUvarint v ++ rest) =
        (none, x ||| (v <<< s), rest) := by
  intro v
  induction v using Nat.strong_induction_on with
  | _ v ih =>
    intro fuel x s rest hle hcap
    by_cases hs : v < 128
    · have h1 : putLen v = 1 := putLen_lt hs
      obtain ⟨m, rfl⟩ : ∃ m, fuel = m + 1 := ⟨fuel - 1, by omega⟩
      rw [putUvarint_lt hs]
      have hcond : ¬ (m = 0 ∧ 1 < v) := by
        rintro ⟨rfl, hv⟩
        have h0 := hcap (by omega)
        simp only [show (0 : Nat) + 1 - 1 = 0 from rfl, pow_zero, Nat.div_one] at h0
        omega
      simp [readUvarintLoop, hs, hcond]
    · have h128 : 128 ≤ v := Nat.not_lt.1 hs
      have hlen : putLen v = putLen (v / 128) + 1 := putLen_ge h128
      have hp := putLen_pos (v / 128)
      obtain ⟨m, rfl⟩ : ∃ m, fuel = m + 1 := ⟨fuel - 1, by omega⟩
      rw [putUvarint_ge h128, List.cons_append]
      have hb : ¬ (v % 128 + 128 < 128) := by omega
      simp only [readUvarintLoop, if_neg hb]
      have hmod : (v % 128 + 128) % 128 = v % 128 := by omega
      rw [hmod]
      rw [ih (v / 128) (Nat.div_lt_self (by omega) (by omega)) m
        (x ||| ((v % 128) <<< s)) (s + 7) rest (by omega) ?cap]
      · rw [Nat.lor_assoc, varint_group_lor]
      case cap =>
        intro hEq
        have hm1 : 1 ≤ m := by omega
        have hc := hcap (by omega)
        rw [Nat.div_div_eq_div_mul]
        have hpow : 128 * 128 ^ (m - 1) = 128 ^ m := by
          rw [← pow_succ']
          congr 1
          omega
        rw [hpow]
        have e : m + 1 - 1 = m := by omega
        rw [e] at hc
        exact hc

/-- Reading back a varint: `binary.ReadUvarint` inverts `binary.PutUvarint` for every 64-bit
value, leaving trailing bytes untouched. -/
lemma readUvarint_putUvarint {v : Nat} (h : v < 2 ^ 64) (rest : List Nat) :
    readUvarint (putUvarint v ++ rest) = (none, v, rest) := by
  unfold readUvarint
  rw [readUvarintLoop_putUvarint v 10 0 0 rest ?l1 ?l2]
  · simp
  case l1 =>
    refine putLen_le 10 v (by omega) ?_
    calc v < 2 ^ 64 := h
    _ ≤ 2 ^ (7 * 10) := by norm_num
  case l2 =>
    intro _
    have h9 : (128 : Nat) ^ 9 = 2 ^ 63 := by norm_num
    have : v / 2 ^ 63 < 2 := by
      apply Nat.div_lt_of_lt_mul
      calc v < 2 ^ 64 := h
      _ = 2 * 2 ^ 63 := by norm_num
    simp only [h9]
    omega

lemma bitLen_one_le {n : Nat} (h : 1 ≤ n) : 1 ≤ bitLen n := by
  rw [bitLen_pos (by omega)]; omega

lemma bitLen_le : ∀ (k n : Nat), n < 2 ^ k → bitLen n ≤ k := by
  intro k
  induction k with
  | zero =>
    intro n h
    have : n = 0 := by omega
    simp [this, bitLen_zero]
  | succ k ih =>
    intro n h
    by_cases h0 : n = 0
    · simp [h0, bitLen_zero]
    · rw [bitLen_pos h0]
      have hdiv : n / 2 < 2 ^ k := by
        apply Nat.div_lt_of_lt_mul
        have : (2 : Nat) ^ (k + 1) = 2 * 2 ^ k := by rw [pow_succ]; ring
        omega
      have := ih (n / 2) hdiv
      omega

lemma bitLen_div_two_pow : ∀ (k n : Nat), 2 ^ k ≤ n → bitLen n = bitLen (n / 2 ^ k) + k := by
  intro k
  induction k with
  | zero => simp
  | succ k ih =>
    intro n h
    have h2 : (2 : Nat) ^ (k + 1) = 2 * 2 ^ k := by rw [pow_succ]; ring
    have hn : n ≠ 0 := by
      have : 0 < 2 ^ (k + 1) := Nat.pos_pow_of_pos _ (by omega)
      omega
    rw [bitLen_pos hn]
    have hdk : 2 ^ k ≤ n / 2 := by
      rw [Nat.le_div_iff_mul_le (by omega)]
      omega
    rw [ih (n / 2) hdk, Nat.div_div_eq_div_mul]
    have : 2 * 2 ^ k = 2 ^ (k + 1) := by omega
    rw [this]
    omega

lemma putLen_formula : ∀ (v : Nat), putLen v = max 1 ((bitLen v + 6) / 7) := by
  intro v
  induction v using Nat.strong_induction_on with
  | _ v ih =>
    by_cases hs : v < 128
    · rw [putLen_lt hs]
      by_cases h0 : v = 0
      · simp [h0, bitLen_zero]
      · have hlow : 1 ≤ bitLen v := bitLen_one_le (by omega)
        have hhigh : bitLen v ≤ 7 := bitLen_le 7 v (by omega)
        have : (bitLen v + 6) / 7 = 1 := by omega
        simp [this]
    · have h128 : 128 ≤ v := Nat.not_lt.1 hs
      rw [putLen_ge h128, ih (v / 128) (Nat.div_lt_self (by omega) (by omega))]
      have hb : bitLen v = bitLen (v / 128) + 7 := by
        have := bitLen_div_two_pow 7 v (by omega)
        norm_num at this
        exact this
      have hq : 1 ≤ v / 128 := (Nat.one_le_div_iff (by omega)).2 h128
      have h1 : 1 ≤ bitLen (v / 128) := bitLen_one_le hq
      rw [hb]
      have e1 : 1 ≤ (bitLen (v / 128) + 6) / 7 := by omega
      have e2 : (bitLen (v / 128) + 7 + 6) / 7 = (bitLen (v / 128) + 6) / 7 + 1 := by
        omega
      rw [e2, Nat.max_eq_right e1, Nat.max_eq_right (by omega)]

/-- C5: for every unsigned 64-bit value, `WriteVarInt` (via
`binary.PutUvarint`) appends exactly `max 1 (ceil (bit_length v / 7))`
bytes — at least 1 and at most 10 — in base-128 least-significant-group-
first form with the high bit as continuation (the form `putUvarint` is
defined in), and `binary.ReadUvarint` on those bytes returns exactly the
value, consuming nothing else. -/
theorem writeVarInt_roundtrip_and_length (v : Nat) (h : v < 2 ^ 64) :
    readUvarint (putUvarint v) = (none, v, []) ∧
    (putUvarint v).length = max 1 ((bitLen v + 6) / 7) ∧
    1 ≤ (putUvarint v).length ∧ (putUvarint v).length ≤ 10 := by
  refine ⟨?_, putLen_formula v, putLen_pos v, ?_⟩
  · have := readUvarint_putUvarint h []
    simpa using this
  · refine putLen_le 10 v (by omega) ?_
    calc v < 2 ^ 64 := h
    _ ≤ 2 ^ (7 * 10) := by norm_num

/-- Witness for C5 at the largest 64-bit value. -/
theorem writeVarInt_roundtrip_and_length_witness :
    2 ^ 64 - 1 < 2 ^ 64 ∧
    (readUvarint (putUvarint (2 ^ 64 - 1)) = (none, 2 ^ 64 - 1, []) ∧
      (putUvarint (2 ^ 64 - 1)).length = max 1 ((bitLen (2 ^ 64 - 1) + 6) / 7) ∧
      1 ≤ (putUvarint (2 ^ 64 - 1)).length ∧ (putUvarint (2 ^ 64 - 1)).length ≤ 10) :=
  ⟨by norm_num, writeVarInt_roundtrip_and_length (2 ^ 64 - 1) (by norm_num)⟩

lemma marshalElems_u8 (bs : List Nat) (hb : ∀ b ∈ bs, b < 256) :
    marshalElems .tU8 (bs.map .vU8) = bs := by
  induction bs with
  | nil => rfl
  | cons b rest ih =>
    have hb0 : b < 256 := hb b (by simp)
    have hrest : ∀ x ∈ rest, x < 256 := fun x hx => hb x (by simp [hx])
    simp only [List.map_cons, marshalElems, marshalPrimitive, beBytes, ih hrest]
    simp [Nat.mod_eq_of_lt hb0]

/-- C8 (counterexample): for the one-byte sequence `[0xAB]` the byte-run
form is NOT strictly shorter than what the generic per-element encoding
path produces — both are the two bytes `[1, 0xAB]`. -/
theorem byte_run_not_strictly_shorter :
    ¬ (byteRunBytes [171]).length < (genericByteSliceBytes [171]).length := by
  have h1 : byteRunBytes [171] = [1, 171] := by
    simp [byteRunBytes, putUvarint_lt]
  have h2 : genericByteSliceBytes [171] = [1, 171] := by
    simp only [genericByteSliceBytes, marshalElems_u8 [171] (by norm_num)]
    simp [putUvarint_lt]
  simp [h1, h2]

/-- C8 (amended): a sequence of N raw bytes encodes to exactly
`varint(N)` followed by the N bytes; the decoder applies the byte-element
special case, reading the run back with a single `io.ReadFull`; but the
encoder reaches this wire form through the generic per-element path (one
`marshalPrimitive` byte per element) — the byte-run form has the SAME
length as that path's output, not a strictly shorter one. -/
theorem byte_slice_codec (bs rest : List Nat) (hb : ∀ b ∈ bs, b < 256)
    (hl : bs.length < 2 ^ 64) :
    marshalValue (.vSlice .tU8 (bs.map .vU8)) = byteRunBytes bs ∧
    (genericByteSliceBytes bs).length = (byteRunBytes bs).length ∧
    unmarshalValue (.tSlice .tU8) (byteRunBytes bs ++ rest) =
      (none, .vSlice .tU8 (bs.map .vU8), rest) := by
  have hgen : genericByteSliceBytes bs = byteRunBytes bs := by
    simp [genericByteSliceBytes, byteRunBytes, marshalElems_u8 bs hb]
  refine ⟨?_, by rw [hgen], ?_⟩
  · simp only [marshalValue]
    simp [byteRunBytes, marshalElems_u8 bs hb]
  · have harg : byteRunBytes bs ++ rest = putUvarint bs.length ++ (bs ++ rest) := by
      simp [byteRunBytes]
    rw [harg]
    simp only [unmarshalValue]
    rw [unmarshalSlice, readUvarint_putUvarint hl (bs ++ rest)]
    simp only [GoType.isU8, if_true]
    rw [readFull, if_pos (by simp)]
    simp [List.take_left, List.drop_left]

/-- Witness for the amended C8 theorem at the two-byte run `[0xAB, 7]`
with trailing input `[9]`. -/
theorem byte_slice_codec_witness :
    (∀ b ∈ [171, 7], b < 256) ∧ ([171, 7] : List Nat).length < 2 ^ 64 ∧
    (marshalValue (.vSlice .tU8 ([171, 7].map .vU8)) = byteRunBytes [171, 7] ∧
      (genericByteSliceBytes [171, 7]).length = (byteRunBytes [171, 7]).length ∧
      unmarshalValue (.tSlice .tU8) (byteRunBytes [171, 7] ++ [9]) =
        (none, .vSlice .tU8 ([171, 7].map .vU8), [9])) :=
  ⟨by norm_num, by norm_num,
    byte_slice_codec [171, 7] [9] (by norm_num) (by norm_num)⟩
